import Mathlib

/-!
Verification development for the beta-plane barotropic vorticity model
(`barotropic_vorticity/baro_vort_script.py`).

The script is a pseudospectral solver: fields live either in real space
(arrays of shape `(ny, nx)` of floats) or in spectral space (arrays of
shape `(nl, nk)` of complex coefficients of a real-to-complex 2D FFT).
We embed both as functions out of finite index types, with floats
modelled by real numbers.  Numeric literals written `2.0`, `23./12.`,
etc. in the Python source are written as the equal real numerals here.
The exponents `n_diss = 2.0` and `filter_exp = 8.` are floats in the
source but are only ever used as exponents of nonnegative reals, where
float exponentiation agrees with natural-number powers, so they are
embedded as natural numbers.

Plotting, console printing and the diagnostic arrays (`time_arr`,
`tot_energy_arr`, the `matplotlib` blocks) do not feed back into the
simulation state and are not embedded.
-/

namespace BaroVort

noncomputable section

open Real

/-! ## Configuration constants (source lines 66-94) -/

/-- Numerical resolution in x: `nx = 256`. -/
abbrev nx : ℕ := 256

/-- Numerical resolution in y: `ny = 256`. -/
abbrev ny : ℕ := 256

/-- Domain size in x: `Lx = 1.0`. -/
def Lx : ℝ := 1

/-- Domain size in y: `Ly = 1.0`. -/
def Ly : ℝ := 1

/-- Background zonal velocity `ubar = 0.00`. -/
def ubar : ℝ := 0

/-- Beta-plane parameter `beta = 4.0`. -/
def beta : ℝ := 4

/-- Dissipation order `n_diss = 2.0` (used only as an exponent of
nonnegative reals, hence embedded as a natural number). -/
def n_diss : ℕ := 2

/-- Dissipation timescale coefficient `tau = 0.1`. -/
def tau : ℝ := 0.1

/-- Strength of Rayleigh drag `r_rayleigh = 1.e-4`. -/
def r_rayleigh : ℝ := 1e-4

/-- Forcing amplitude factor `forcing_amp_factor = 1.0`. -/
def forcing_amp_factor : ℝ := 1

/-- `ALLOW_SPEEDUP = True`. -/
def ALLOW_SPEEDUP : Bool := true

/-- `SPEEDUP_AT_C = 0.4`. -/
def SPEEDUP_AT_C : ℝ := 0.4

/-- `SLOWDN_AT_C = 0.6`. -/
def SLOWDN_AT_C : ℝ := 0.6

/-! ## Physical and spectral domain (source lines 175-224) -/

/-- `nl = ny`: number of rows of a spectral array. -/
abbrev nl : ℕ := ny

/-- `nk = int(np.round(nx/2)) + 1 = 129`: number of columns of a spectral
array (half-width of the real-to-complex transform). -/
abbrev nk : ℕ := 129

/-- Index of a spectral coefficient: (row `l`-index, column `k`-index). -/
abbrev SIdx : Type := Fin nl × Fin nk

/-- A spectral field: complex coefficient array of shape `(nl, nk)`. -/
abbrev SField : Type := SIdx → ℂ

/-- Index of a real-space grid point: (row, column). -/
abbrev RIdx : Type := Fin ny × Fin nx

/-- A real-space field: real array of shape `(ny, nx)`. -/
abbrev RField : Type := RIdx → ℝ

/-- Grid spacing `dx = Lx / nx`. -/
def dx : ℝ := Lx / nx

/-- Grid spacing `dy = Ly / ny`. -/
def dy : ℝ := Ly / ny

/-- Initial timestep `dt = 0.4 * 16.0 / nx`; the running `dt` changes as
the simulation progresses (fields of `SimState`). -/
def dt0 : ℝ := 0.4 * 16.0 / nx

/-- Fundamental wavenumber `dk = 2.0*pi/Lx`. -/
def dk : ℝ := 2 * π / Lx

/-- Fundamental wavenumber `dl = 2.0*pi/Ly`. -/
def dl : ℝ := 2 * π / Ly

/-- Wavenumber array `k = dk*np.arange(0, nk)`, constant along rows. -/
def k (j : Fin nk) : ℝ := dk * j.val

/-- Wavenumber array `l = dl*fftfreq(nl, d=1.0/nl)`, constant along
columns.  For even `nl`, `fftfreq(nl, d=1.0/nl)` is
`[0, 1, ..., nl/2 - 1, -nl/2, ..., -1]`. -/
def l (i : Fin nl) : ℝ := dl * (if i.val < nl / 2 then (i.val : ℝ) else (i.val : ℝ) - nl)

/-- `ksq = k**2 + l**2`, then `ksq[ksq == 0] = 1.0` (avoid divide by
zero - set ksq = 1 at zero wavenumber). -/
def ksq (q : SIdx) : ℝ := if k q.2 ^ 2 + l q.1 ^ 2 = 0 then 1 else k q.2 ^ 2 + l q.1 ^ 2

/-- Reciprocal `rksq = 1.0 / ksq`. -/
def rksq (q : SIdx) : ℝ := 1 / ksq q

/-- `ik = 1j*k`: derivative operator in x. -/
def ik (q : SIdx) : ℂ := Complex.I * (k q.2 : ℂ)

/-- `il = 1j*l`: derivative operator in y. -/
def il (q : SIdx) : ℂ := Complex.I * (l q.1 : ℂ)

/-- The zero mode `(0, 0)`, the only index where `k**2 + l**2 = 0`. -/
def zeroIdx : SIdx := ((0 : Fin nl), (0 : Fin nk))

/-! ## Transforms (source lines 97-103)

`ft` is `rfft2` and `ift` is `irfft2`, embedded as the exact
real-to-complex discrete Fourier transform pair: `ft` is the full 2D DFT
restricted to the non-redundant half of the columns, and `ift` first
extends its input by Hermitian symmetry to the full spectral grid, then
applies the inverse DFT and takes the real part. -/

/-- Forward kernel `exp(-2*pi*i*(a*y/ny + b*x/nx))`. -/
def ftKernel (q : SIdx) (p : RIdx) : ℂ :=
  Complex.exp (-(2 * (π : ℂ) * Complex.I) *
    ((q.1.val : ℂ) * (p.1.val : ℂ) / (ny : ℂ) + (q.2.val : ℂ) * (p.2.val : ℂ) / (nx : ℂ)))

/-- `ft(phi) = rfft2(phi)`: go from physical space to spectral space. -/
def ft (phi : RField) : SField := fun q => ∑ p : RIdx, (phi p : ℂ) * ftKernel q p

/-- Hermitian extension of a half-spectrum to the full `(nl, nx)` grid,
as assumed by `irfft2`: columns `b >= nk` hold the conjugate of the
coefficient at the negated wavenumber. -/
def spectralExtend (psi : SField) (p : Fin nl × Fin nx) : ℂ :=
  if h : p.2.val < nk then psi (p.1, ⟨p.2.val, h⟩)
  else (starRingEnd ℂ)
    (psi (⟨(nl - p.1.val) % nl, Nat.mod_lt _ (by norm_num)⟩,
          ⟨nx - p.2.val, by have h2 := p.2.isLt; simp only [nx, nk] at h h2 ⊢; omega⟩))

/-- Inverse kernel `exp(2*pi*i*(a*y/ny + b*x/nx))`. -/
def iftKernel (q : Fin nl × Fin nx) (p : RIdx) : ℂ :=
  Complex.exp ((2 * (π : ℂ) * Complex.I) *
    ((q.1.val : ℂ) * (p.1.val : ℂ) / (ny : ℂ) + (q.2.val : ℂ) * (p.2.val : ℂ) / (nx : ℂ)))

/-- `ift(psi) = irfft2(psi)`: go from spectral space to physical space. -/
def ift (psi : SField) : RField := fun p =>
  (∑ q : Fin nl × Fin nx, spectralExtend psi q * iftKernel q p).re / ((nx : ℝ) * (ny : ℝ))

/-! ## Derivatives, velocity, Courant number (source lines 105-132) -/

/-- `grad(phit)`: spatial derivatives of a transformed variable,
`(ik*phit, il*phit)`. -/
def grad (phit : SField) : SField × SField :=
  (fun q => ik q * phit q, fun q => il q * phit q)

/-- `velocity(psit)`: the velocity field `(u, v) = (-ift(il*psit), ift(ik*psit))`
from the spectral streamfunction. -/
def velocity (psit : SField) : RField × RField :=
  (fun p => -(ift (grad psit).2 p), fun p => ift (grad psit).1 p)

/-- `np.max(np.abs(phi))` over a real-space array. -/
def maxAbs (phi : RField) : ℝ :=
  Finset.univ.sup' ⟨((0 : Fin ny), (0 : Fin nx)), Finset.mem_univ _⟩ fun p => |phi p|

/-- `courant_number(psix, psiy, dx, dt) = (max|psiy| + max|psix|)*dt/dx`. -/
def courant_number (psix psiy : RField) (dxArg dt : ℝ) : ℝ :=
  (maxAbs psiy + maxAbs psix) * dt / dxArg

/-! ## Dissipation and spectral filters (source lines 134-143, 212-224) -/

/-- Hyperviscosity coefficient
`nu = ((Lx/(np.floor(nx/3)*2.0*pi))**(2*n_diss))/tau` (source line 215). -/
def nu : ℝ := (Lx / ((⌊(nx : ℝ) / 3⌋₊ : ℝ) * (2 * π))) ^ (2 * n_diss) / tau

/-- High wavenumber filter exponent `filter_exp = 8.` (a float exponent
of nonnegative reals in the source, embedded as a natural number). -/
def filter_exp : ℕ := 8

/-- High wavenumber filter cutoff `kcut = 30.`. -/
def kcut : ℝ := 30

/-- Filter decay constant
`filter_dec = -np.log(1.+2.*pi/nk)/((nk-kcut)**filter_exp)`. -/
def filter_dec : ℝ := -Real.log (1 + 2 * π / nk) / (((nk : ℝ) - kcut) ^ filter_exp)

/-- `anti_alias(phit)`: set the coefficients of wavenumbers above the
mask `k_mask = (8./9.)*(nk+1)**2` to zero, i.e.
`phit[np.abs(ksq/(dk*dk)) >= k_mask] = 0.0`. -/
def anti_alias (phit : SField) : SField := fun q =>
  if (8 / 9 : ℝ) * ((nk : ℝ) + 1) ^ 2 ≤ |ksq q / (dk * dk)| then 0 else phit q

/-- `high_wn_filter(phit)`: multiply the coefficients with
`np.abs(ksq/(dk*dk)) >= kcut**2` by
`exp(filter_dec*(sqrt(ksq/(dk*dk))-kcut)**filter_exp)`. -/
def high_wn_filter (phit : SField) : SField := fun q =>
  if kcut ^ 2 ≤ |ksq q / (dk * dk)| then
    (Real.exp (filter_dec * (Real.sqrt (ksq q / (dk * dk)) - kcut) ^ filter_exp) : ℂ) * phit q
  else phit q

/-- Implicit hyperviscous damping factor `deln = 1.0 / (1.0 + nu*ksq**n_diss*dt)`
(source line 326; its application `zt[:] = zt * deln` on line 327 is
commented out in the source). -/
def deln (dt : ℝ) (q : SIdx) : ℝ := 1 / (1 + nu * ksq q ^ n_diss * dt)

/-! ## Adams-Bashforth integrator (source lines 149-173) -/

/-- Result of one `adams_bashforth` call: the advanced field together
with the two stored right-hand sides (the globals `_prhs`, `_pprhs`
after the call). -/
structure ABResult where
  newField : SField
  prhs : SField
  pprhs : SField

/-- `adams_bashforth(zt, rhs, dt)`: a single step forward in time.
The branch on the global `step` selects forward Euler at step 0, AB2 at
step 1 and AB3 from step 2 on; then
`newzt = zt + dt1*rhs + dt2*_prhs + dt3*_pprhs` and the stored history
shifts to `(_prhs, _pprhs) = (rhs, old _prhs)`.  (CPython's `is` on the
small integers 0 and 1 behaves as equality.) -/
def adams_bashforth (st : ℕ) (zt rhs : SField) (dt : ℝ) (prhs pprhs : SField) : ABResult :=
  let dts : ℝ × ℝ × ℝ :=
    if st = 0 then (dt, 0, 0)
    else if st = 1 then (1.5 * dt, -0.5 * dt, 0)
    else (23 / 12 * dt, -16 / 12 * dt, 5 / 12 * dt)
  { newField := fun q =>
      zt q + (dts.1 : ℂ) * rhs q + (dts.2.1 : ℂ) * prhs q + (dts.2.2 : ℂ) * pprhs q
    prhs := rhs
    pprhs := prhs }

/-- Claim-side restatement of the three-regime Adams-Bashforth
coefficients `(dt1, dt2, dt3)` keyed on steps elapsed since start. -/
def abCoeffsSpec (st : ℕ) (dt : ℝ) : ℝ × ℝ × ℝ :=
  if st = 0 then (dt, 0, 0)
  else if st = 1 then (1.5 * dt, -0.5 * dt, 0)
  else (23 / 12 * dt, -16 / 12 * dt, 5 / 12 * dt)

/-! ## Adaptive timestep (source lines 313-318) -/

/-- The adaptive-dt block of the loop body: if `c >= SLOWDN_AT_C` then
`dt = 0.9*dt`, elif `c < SPEEDUP_AT_C and ALLOW_SPEEDUP` then
`dt = 1.1*dt`, else `dt` unchanged. -/
def adapt_dt (c dt : ℝ) : ℝ :=
  if SLOWDN_AT_C ≤ c then 0.9 * dt
  else if c < SPEEDUP_AT_C ∧ ALLOW_SPEEDUP = true then 1.1 * dt
  else dt

/-! ## Loop-body right-hand side (source lines 286-324) -/

/-- `psit = -rksq * zt`: spectral streamfunction from spectral vorticity. -/
def psit_of (zt : SField) : SField := fun q => -((rksq q : ℝ) : ℂ) * zt q

/-- `psix = ift(psixt)` with `psixt, psiyt = grad(psit)`. -/
def psix_of (zt : SField) : RField := ift (grad (psit_of zt)).1

/-- `psiy = ift(psiyt)`. -/
def psiy_of (zt : SField) : RField := ift (grad (psit_of zt)).2

/-- `zx = ift(zxt)` with `zxt, zyt = grad(zt)`. -/
def zx_of (zt : SField) : RField := ift (grad zt).1

/-- `zy = ift(zyt)`. -/
def zy_of (zt : SField) : RField := ift (grad zt).2

/-- `jac = psix * zy - psiy * zx + ubar * zx`: real-space Jacobian. -/
def jac_of (zt : SField) : RField := fun p =>
  psix_of zt p * zy_of zt p - psiy_of zt p * zx_of zt p + ubar * zx_of zt p

/-- `jact = ft(jac)`. -/
def jact_of (zt : SField) : SField := ft (jac_of zt)

/-- `rhs = -jact - beta*psixt + forcet - zt*r_rayleigh` (source line 324). -/
def rhs_of (zt forcet : SField) : SField := fun q =>
  -jact_of zt q - (beta : ℂ) * (grad (psit_of zt)).1 q + forcet q - zt q * (r_rayleigh : ℂ)

/-- `c = courant_number(psix, psiy, dx, dt)` (source line 313). -/
def courant_of (zt : SField) (dt : ℝ) : ℝ :=
  courant_number (psix_of zt) (psiy_of zt) dx dt

/-! ## Forcing (source lines 255, 307-309) -/

/-- `amp = forcing_amp_factor * np.max(np.abs(qi)) / dt`: forcing
amplitude fixed once at initialization from the peak initial vorticity
`qi` and the initial timestep `dt0`. -/
def amp (qi : RField) : ℝ := forcing_amp_factor * maxAbs qi / dt0

/-- One per-step draw of the stochastic forcing (source lines 307-309):
zero outside `14 < sqrt(ksq)/dk < 20`, and inside the band
`0.5*amp*(u - 0.5)*exp(1j*2*pi*v)` where `u q`, `v q` are that step's
uniform `[0,1)` samples of `np.random.random` at `q`. -/
def forcet_draw (ampArg : ℝ) (u v : SIdx → ℝ) : SField := fun q =>
  if 14 < Real.sqrt (ksq q) / dk ∧ Real.sqrt (ksq q) / dk < 20 then
    ((0.5 * ampArg * (u q - 0.5) : ℝ) : ℂ) * Complex.exp (Complex.I * ((2 * π * v q : ℝ) : ℂ))
  else 0

/-! ## Simulation state and the loop body (source lines 81-83, 149, 182, 286-424) -/

/-- The mutable simulation state threaded through the `while` loop: the
spectral vorticity `zt`, the accumulated time `t`, the current timestep
`dt`, the step counter `step`, and the integrator history `_prhs`,
`_pprhs`. -/
structure SimState where
  zt : SField
  t : ℝ
  dt : ℝ
  step : ℕ
  prhs : SField
  pprhs : SField

/-- The state entering the loop: `t = 0.0`, `step = 0`,
`dt = 0.4*16.0/nx`, `_prhs = _pprhs = 0`, with the (random) initial
spectral vorticity passed in as `zt0`. -/
def initState (zt0 : SField) : SimState :=
  { zt := zt0, t := 0, dt := dt0, step := 0, prhs := fun _ => 0, pprhs := fun _ => 0 }

/-- One iteration of the `while` loop (source lines 286-424), with this
step's random forcing samples `u`, `v` and the fixed forcing amplitude
`ampArg` passed in: recompute spectral derivatives and the real-space
Jacobian from the current `zt`, draw the forcing, adjust `dt` from the
Courant number, assemble the right-hand side, advance with
`adams_bashforth`, apply `anti_alias` and `high_wn_filter`, then
`t = t + dt` and `step = step + 1`.  (The `deln` damping on source line
327 is commented out and hence absent; plotting/diagnostic emission does
not alter this state.) -/
def stepState (ampArg : ℝ) (u v : SIdx → ℝ) (s : SimState) : SimState :=
  let forcet := forcet_draw ampArg u v
  let dtN := adapt_dt (courant_of s.zt s.dt) s.dt
  let ab := adams_bashforth s.step s.zt (rhs_of s.zt forcet) dtN s.prhs s.pprhs
  { zt := high_wn_filter (anti_alias ab.newField)
    t := s.t + dtN
    dt := dtN
    step := s.step + 1
    prhs := ab.prhs
    pprhs := ab.pprhs }

/-- Claim-side variant of the loop body that additionally multiplies the
advanced spectral vorticity by the damping factor `deln` (what source
line 327 would do if it were not commented out), placed as in the source
between the integrator call and `anti_alias`. -/
def stepState_damped_spec (ampArg : ℝ) (u v : SIdx → ℝ) (s : SimState) : SimState :=
  let forcet := forcet_draw ampArg u v
  let dtN := adapt_dt (courant_of s.zt s.dt) s.dt
  let ab := adams_bashforth s.step s.zt (rhs_of s.zt forcet) dtN s.prhs s.pprhs
  { zt := high_wn_filter (anti_alias (fun q => ((deln dtN q : ℝ) : ℂ) * ab.newField q))
    t := s.t + dtN
    dt := dtN
    step := s.step + 1
    prhs := ab.prhs
    pprhs := ab.pprhs }

/-- `n` iterations of the loop body from the initial state, the step-`i`
forcing samples being `U i`, `V i`. -/
def run (ampArg : ℝ) (U V : ℕ → SIdx → ℝ) (zt0 : SField) : ℕ → SimState
  | 0 => initState zt0
  | n + 1 => stepState ampArg (U n) (V n) (run ampArg U V zt0 n)

/-- The `dt` consumed by step `i` (the value produced by the adaptive
adjustment inside that step, fed to that step's integrator call and to
`t = t + dt`). -/
def consumedDt (ampArg : ℝ) (U V : ℕ → SIdx → ℝ) (zt0 : SField) (i : ℕ) : ℝ :=
  adapt_dt (courant_of (run ampArg U V zt0 i).zt (run ampArg U V zt0 i).dt)
    (run ampArg U V zt0 i).dt

/-! ## Claim-side definitions for the right-hand-side assembly (C6) -/

/-- Claim-side streamfunction `psi_hat = -zeta_hat/ksq`. -/
def psi_hat_spec (zt : SField) : SField := fun q => -(zt q) / ((ksq q : ℝ) : ℂ)

/-- Claim-side real-space Jacobian
`J = psi_x*zeta_y - psi_y*zeta_x + ubar*zeta_x`, from freshly
inverse-transformed derivatives of `psi_hat` and `zeta_hat`. -/
def jac_spec (zt : SField) : RField := fun p =>
  ift (fun q => ik q * psi_hat_spec zt q) p * ift (fun q => il q * zt q) p
    - ift (fun q => il q * psi_hat_spec zt q) p * ift (fun q => ik q * zt q) p
    + ubar * ift (fun q => ik q * zt q) p

/-- Claim-side right-hand side
`-F[J] - beta*(ik*psi_hat) + forcing - r*zeta_hat`. -/
def rhs_spec (zt forcet : SField) : SField := fun q =>
  -(ft (jac_spec zt) q) - (beta : ℂ) * (ik q * psi_hat_spec zt q) + forcet q
    - (r_rayleigh : ℂ) * zt q

/-! ## Concrete indices and fields used in witnesses and counterexamples -/

/-- The spectral index with `l = 0`, `k = 15*dk` (wavenumber magnitude
`15*dk`, inside the forcing band). -/
def q15 : SIdx := ((0 : Fin nl), (15 : Fin nk))

/-- The spectral index with `l = 0`, `k = 31*dk` (wavenumber magnitude
`31*dk`, strictly above the filter cutoff `kcut = 30`). -/
def q31 : SIdx := ((0 : Fin nl), (31 : Fin nk))

/-- The zero spectral field. -/
def zeroS : SField := fun _ => 0

/-! ## Helper lemmas -/

lemma dk_eq : dk = 2 * π := by simp [dk, Lx]

lemma dl_eq : dl = 2 * π := by simp [dl, Ly]

lemma dk_pos : 0 < dk := by rw [dk_eq]; positivity

lemma dl_pos : 0 < dl := by rw [dl_eq]; positivity

lemma k_zero : k (0 : Fin nk) = 0 := by simp [k]

lemma l_zero : l (0 : Fin nl) = 0 := by norm_num [l]

lemma k_ne_zero {j : Fin nk} (hj : j ≠ 0) : k j ≠ 0 := by
  have hv : (j.val : ℝ) ≠ 0 := by
    have : j.val ≠ 0 := fun h => hj (Fin.ext (by simp [h]))
    exact_mod_cast this
  exact mul_ne_zero (ne_of_gt dk_pos) hv

lemma l_ne_zero {i : Fin nl} (hi : i ≠ 0) : l i ≠ 0 := by
  have hv : i.val ≠ 0 := fun h => hi (Fin.ext (by simp [h]))
  have h255 : i.val < nl := i.isLt
  unfold l
  refine mul_ne_zero (ne_of_gt dl_pos) ?_
  split
  · exact_mod_cast hv
  · refine sub_ne_zero.mpr (ne_of_lt ?_)
    exact_mod_cast h255

lemma sum_sq_ne_zero {q : SIdx} (hq : q ≠ zeroIdx) : k q.2 ^ 2 + l q.1 ^ 2 ≠ 0 := by
  have hor : q.1 ≠ 0 ∨ q.2 ≠ 0 := by
    by_contra hcon
    push_neg at hcon
    exact hq (Prod.ext_iff.mpr ⟨hcon.1, hcon.2⟩)
  have hpos : 0 < k q.2 ^ 2 + l q.1 ^ 2 := by
    rcases hor with h1 | h2
    · have : l q.1 ≠ 0 := l_ne_zero h1
      have hl2 : 0 < l q.1 ^ 2 := by positivity
      have hk2 : 0 ≤ k q.2 ^ 2 := sq_nonneg _
      linarith
    · have : k q.2 ≠ 0 := k_ne_zero h2
      have hk2 : 0 < k q.2 ^ 2 := by positivity
      have hl2 : 0 ≤ l q.1 ^ 2 := sq_nonneg _
      linarith
  exact ne_of_gt hpos

lemma ksq_of_ne {q : SIdx} (hq : q ≠ zeroIdx) : ksq q = k q.2 ^ 2 + l q.1 ^ 2 :=
  if_neg (sum_sq_ne_zero hq)

lemma ksq_zeroIdx : ksq zeroIdx = 1 := by
  have : k zeroIdx.2 ^ 2 + l zeroIdx.1 ^ 2 = 0 := by
    simp [zeroIdx, k_zero, l_zero]
  simp [ksq, this]

lemma ksq_pos (q : SIdx) : 0 < ksq q := by
  unfold ksq
  split
  · norm_num
  · next h => exact lt_of_le_of_ne (by positivity) (Ne.symm h)

lemma ksq_ne_zero (q : SIdx) : ksq q ≠ 0 := ne_of_gt (ksq_pos q)

lemma maxAbs_neg (f : RField) : maxAbs (fun p => -f p) = maxAbs f := by
  unfold maxAbs
  simp only [abs_neg]

lemma spectralExtend_neg (psi : SField) (p : Fin nl × Fin nx) :
    spectralExtend (fun q => -psi q) p = -spectralExtend psi p := by
  unfold spectralExtend
  split <;> simp

lemma ift_neg (psi : SField) (p : RIdx) : ift (fun q => -psi q) p = -(ift psi p) := by
  unfold ift
  have h : (∑ q : Fin nl × Fin nx, spectralExtend (fun q' => -psi q') q * iftKernel q p)
      = -(∑ q : Fin nl × Fin nx, spectralExtend psi q * iftKernel q p) := by
    rw [← Finset.sum_neg_distrib]
    refine Finset.sum_congr rfl fun q _ => ?_
    rw [spectralExtend_neg]
    ring
  rw [h, Complex.neg_re, neg_div]

/-! ## Claim C8 -/

/-- C8: the wavenumber-squared array `ksq` equals `k^2 + l^2` at every
mode except the zero mode, where it is set to 1; consequently `ksq` is
everywhere nonzero, the reciprocal `rksq = 1/ksq` is a genuine inverse,
and the streamfunction derivation `psit = -zt/ksq` is defined with no
division by zero: `ksq * psit = -zt` for every spectral vorticity. -/
theorem C8_ksq_regularized :
    (∀ q : SIdx, q ≠ zeroIdx → ksq q = k q.2 ^ 2 + l q.1 ^ 2) ∧
    ksq zeroIdx = 1 ∧
    (∀ q : SIdx, ksq q ≠ 0 ∧ rksq q * ksq q = 1 ∧ ((ksq q : ℝ) : ℂ) ≠ 0) ∧
    (∀ zt : SField, ∀ q : SIdx, ((ksq q : ℝ) : ℂ) * psit_of zt q = -(zt q)) := by
  refine ⟨fun q hq => ksq_of_ne hq, ksq_zeroIdx, fun q => ⟨ksq_ne_zero q, ?_, ?_⟩, ?_⟩
  · rw [rksq, one_div, inv_mul_cancel₀ (ksq_ne_zero q)]
  · exact Complex.ofReal_ne_zero.mpr (ksq_ne_zero q)
  · intro zt q
    have hK : ((ksq q : ℝ) : ℂ) ≠ 0 := Complex.ofReal_ne_zero.mpr (ksq_ne_zero q)
    rw [psit_of, rksq]
    push_cast
    field_simp
    ring

/-- Witness for C8 at the concrete nonzero mode `(0, 1)`. -/
theorem C8_ksq_regularized_witness :
    (((0 : Fin nl), (1 : Fin nk)) : SIdx) ≠ zeroIdx ∧
    ksq ((0 : Fin nl), (1 : Fin nk)) = k (1 : Fin nk) ^ 2 + l (0 : Fin nl) ^ 2 :=
  ⟨by decide, C8_ksq_regularized.1 _ (by decide)⟩

/-! ## Claim C1 -/

/-- C1: `adams_bashforth` is a three-regime update keyed on the steps
elapsed since start: the returned field is
`field + dt1*rhs + dt2*prev_rhs + dt3*prev_prev_rhs` with
`(dt1, dt2, dt3) = (dt, 0, 0)` at step 0, `(1.5dt, -0.5dt, 0)` at step 1
and `(23/12 dt, -16/12 dt, 5/12 dt)` at every step >= 2, and the stored
history after the call is `(rhs, old prev_rhs)`. -/
theorem C1_adams_bashforth (st : ℕ) (zt rhs prhs pprhs : SField) (dt : ℝ) :
    ((adams_bashforth st zt rhs dt prhs pprhs).newField
        = fun q => zt q + ((abCoeffsSpec st dt).1 : ℂ) * rhs q
            + ((abCoeffsSpec st dt).2.1 : ℂ) * prhs q
            + ((abCoeffsSpec st dt).2.2 : ℂ) * pprhs q) ∧
    (adams_bashforth st zt rhs dt prhs pprhs).prhs = rhs ∧
    (adams_bashforth st zt rhs dt prhs pprhs).pprhs = prhs ∧
    (st = 0 → abCoeffsSpec st dt = (dt, 0, 0)) ∧
    (st = 1 → abCoeffsSpec st dt = (1.5 * dt, -0.5 * dt, 0)) ∧
    (2 ≤ st → abCoeffsSpec st dt = (23 / 12 * dt, -16 / 12 * dt, 5 / 12 * dt)) := by
  refine ⟨rfl, rfl, rfl, fun h => by simp [abCoeffsSpec, h], fun h => by simp [abCoeffsSpec, h], ?_⟩
  intro h
  have h0 : st ≠ 0 := by omega
  have h1 : st ≠ 1 := by omega
  simp [abCoeffsSpec, h0, h1]

/-- Witness for C1: the step-1 (AB2) regime hypothesis discharged at
`st = 1`, `dt = 2`, on zero fields. -/
theorem C1_adams_bashforth_witness :
    (adams_bashforth 1 zeroS zeroS 2 zeroS zeroS).prhs = zeroS ∧
    abCoeffsSpec 1 2 = (1.5 * 2, -0.5 * 2, 0) :=
  ⟨(C1_adams_bashforth 1 zeroS zeroS zeroS zeroS 2).2.1,
   (C1_adams_bashforth 1 zeroS zeroS zeroS zeroS 2).2.2.2.2.1 rfl⟩

/-! ## Claim C2 -/

/-- C2: the Courant number is `(max|u| + max|v|)*dt/dx` computed from
the current velocity field; if `C >= 0.6` then `dt` becomes `0.9*dt`,
else if `C < 0.4` and `ALLOW_SPEEDUP` then `1.1*dt`, else unchanged; and
the adjusted `dt` is exactly the `dt` consumed by the same step's
`adams_bashforth` call. -/
theorem C2_adaptive_dt :
    (∀ c dt : ℝ, adapt_dt c dt =
        if (0.6 : ℝ) ≤ c then 0.9 * dt
        else if c < (0.4 : ℝ) ∧ ALLOW_SPEEDUP = true then 1.1 * dt else dt) ∧
    (∀ zt dt, courant_of zt dt
        = (maxAbs (velocity (psit_of zt)).1 + maxAbs (velocity (psit_of zt)).2) * dt / dx) ∧
    (∀ ampArg u v s, (stepState ampArg u v s).dt = adapt_dt (courant_of s.zt s.dt) s.dt ∧
        (stepState ampArg u v s).zt
          = high_wn_filter (anti_alias (adams_bashforth s.step s.zt
              (rhs_of s.zt (forcet_draw ampArg u v))
              (adapt_dt (courant_of s.zt s.dt) s.dt) s.prhs s.pprhs).newField)) := by
  refine ⟨fun c dt => rfl, fun zt dt => ?_, fun ampArg u v s => ⟨rfl, rfl⟩⟩
  simp only [courant_of, courant_number, velocity, psix_of, psiy_of, maxAbs_neg]

/-! ## Claim C7 -/

/-- C7: for every spectral streamfunction, `velocity` returns the pair
`(u, v)` of real-space fields with `u` the inverse transform of
`-il*psit` and `v` the inverse transform of `ik*psit`. -/
theorem C7_velocity (psit : SField) :
    (velocity psit).1 = (fun p => ift (fun q => -(il q) * psit q) p) ∧
    (velocity psit).2 = (fun p => ift (fun q => ik q * psit q) p) := by
  refine ⟨funext fun p => ?_, rfl⟩
  show -(ift (grad psit).2 p) = ift (fun q => -(il q) * psit q) p
  have h : (fun q => -(il q) * psit q) = fun q => -((grad psit).2 q) := by
    funext q
    simp only [grad]
    ring
  rw [h, ift_neg]

/-! ## Claim C6 -/

lemma psit_spec_eq (zt : SField) : psit_of zt = psi_hat_spec zt := by
  funext q
  rw [psit_of, psi_hat_spec, rksq]
  push_cast
  ring

/-- C6: each step's right-hand side passed to the integrator equals
`-F[J] - beta*(ik*psi_hat) + forcing - r*zeta_hat`, where `F[J]` is the
forward transform of the real-space Jacobian
`J = psi_x*zeta_y - psi_y*zeta_x + ubar*zeta_x` computed from freshly
inverse-transformed derivatives of `psi_hat = -zeta_hat/ksq` and
`zeta_hat`, recomputed from the current spectral vorticity on every
evaluation (the right-hand side is a function of the current `zt`
alone, and the step feeds exactly this field to `adams_bashforth`). -/
theorem C6_rhs_assembly :
    (∀ zt forcet : SField, rhs_of zt forcet = rhs_spec zt forcet) ∧
    (∀ ampArg u v s, (stepState ampArg u v s).zt
        = high_wn_filter (anti_alias (adams_bashforth s.step s.zt
            (rhs_spec s.zt (forcet_draw ampArg u v))
            (adapt_dt (courant_of s.zt s.dt) s.dt) s.prhs s.pprhs).newField)) := by
  have hrhs : ∀ zt forcet : SField, rhs_of zt forcet = rhs_spec zt forcet := by
    intro zt forcet
    have hjac : jac_of zt = jac_spec zt := by
      funext p
      simp only [jac_of, jac_spec, psix_of, psiy_of, zx_of, zy_of, psit_spec_eq, grad]
    funext q
    simp only [rhs_of, rhs_spec, jact_of, hjac, grad, psit_spec_eq]
    ring
  refine ⟨hrhs, fun ampArg u v s => ?_⟩
  rw [← hrhs s.zt (forcet_draw ampArg u v)]
  rfl

/-! ## Claim C4 (corrected): anti_alias is idempotent and the two
filters commute, but high_wn_filter is not idempotent. -/

lemma ksq_row0 (j : Fin nk) (hj : j ≠ 0) : ksq ((0 : Fin nl), j) = (dk * j.val) ^ 2 := by
  have hne : (((0 : Fin nl), j) : SIdx) ≠ zeroIdx := by
    simp [zeroIdx, Prod.ext_iff, hj]
  rw [ksq_of_ne hne]
  simp [k, l_zero]

lemma ksq_row0_div (j : Fin nk) (hj : j ≠ 0) :
    ksq ((0 : Fin nl), j) / (dk * dk) = (j.val : ℝ) ^ 2 := by
  rw [ksq_row0 j hj]
  have h : dk ≠ 0 := ne_of_gt dk_pos
  field_simp
  ring

lemma ksq_q31_div : ksq q31 / (dk * dk) = 961 := by
  have h0 := ksq_row0_div (31 : Fin nk) (by decide)
  rw [show ((31 : Fin nk)).val = 31 from rfl] at h0
  rw [show q31 = (((0 : Fin nl), (31 : Fin nk)) : SIdx) from rfl, h0]
  norm_num

lemma hwf_at_q31 (phi : SField) :
    high_wn_filter phi q31 = (Real.exp filter_dec : ℂ) * phi q31 := by
  simp only [high_wn_filter, ksq_q31_div]
  rw [if_pos (by norm_num [kcut])]
  have hsqrt : Real.sqrt 961 = 31 := by
    rw [show (961 : ℝ) = 31 ^ 2 by norm_num, Real.sqrt_sq (by norm_num : (0 : ℝ) ≤ 31)]
  rw [hsqrt]
  norm_num [kcut, filter_exp]

lemma filter_dec_neg : filter_dec < 0 := by
  rw [filter_dec]
  apply div_neg_of_neg_of_pos
  · have hlog : 0 < Real.log (1 + 2 * π / nk) := by
      apply Real.log_pos
      have := pi_pos
      have h129 : (0 : ℝ) < (nk : ℝ) := by norm_num
      nlinarith
    linarith
  · norm_num [kcut, filter_exp]

lemma exp_filter_dec_ne_one : (Real.exp filter_dec : ℂ) ≠ 1 := by
  intro h
  have h1 : Real.exp filter_dec = 1 := by exact_mod_cast h
  rw [← Real.exp_zero] at h1
  exact absurd (Real.exp_eq_exp.mp h1) (ne_of_lt filter_dec_neg)

lemma hwf_sq_ne (c : ℂ) (hc : c ≠ 0) :
    (Real.exp filter_dec : ℂ) * ((Real.exp filter_dec : ℂ) * c)
      ≠ (Real.exp filter_dec : ℂ) * c := by
  intro h
  have hne : (Real.exp filter_dec : ℂ) ≠ 0 :=
    Complex.ofReal_ne_zero.mpr (Real.exp_ne_zero _)
  have h' : ((Real.exp filter_dec : ℂ) - 1) * ((Real.exp filter_dec : ℂ) * c) = 0 := by
    linear_combination h
  rcases mul_eq_zero.mp h' with h1 | h2
  · exact exp_filter_dec_ne_one (by linear_combination h1)
  · exact absurd h2 (mul_ne_zero hne hc)

/-- C4 (amended): the dealiasing truncation `anti_alias` is idempotent,
and `anti_alias` and `high_wn_filter` give the same result in either
order on every spectral field; but `high_wn_filter` is not idempotent:
a second application attenuates the coefficients strictly above `kcut`
again. -/
theorem C4_filters :
    (∀ phi : SField, anti_alias (anti_alias phi) = anti_alias phi) ∧
    (∀ phi : SField, anti_alias (high_wn_filter phi) = high_wn_filter (anti_alias phi)) ∧
    high_wn_filter (high_wn_filter (fun _ => 1)) ≠ high_wn_filter (fun _ => 1) := by
  refine ⟨fun phi => ?_, fun phi => ?_, ?_⟩
  · funext q
    simp only [anti_alias]
    split
    · rfl
    · rfl
  · funext q
    simp only [anti_alias, high_wn_filter]
    split_ifs <;> simp
  · intro hcon
    have h := congrFun hcon q31
    rw [hwf_at_q31, hwf_at_q31] at h
    exact hwf_sq_ne 1 one_ne_zero h

/-- Counterexample for C4 as stated: applying `high_wn_filter` twice to
the all-ones spectral field differs from applying it once, at the
concrete mode `q31` (wavenumber magnitude `31*dk`, one unit above the
cutoff `kcut = 30`). -/
theorem C4_counterexample :
    high_wn_filter (high_wn_filter (fun _ => 1)) q31 ≠ high_wn_filter (fun _ => 1) q31 := by
  rw [hwf_at_q31, hwf_at_q31]
  exact hwf_sq_ne 1 one_ne_zero

/-! ## Claim C9 -/

/-- C9: starting from `t = 0`, after every completed step the
accumulated time `t` equals the in-order left-fold accumulation of the
`dt` values consumed by each completed step (the same accumulation
`t = t + dt` the loop performs), the step counter equals the number of
completed steps, and the `dt` recorded for step `n` is the `dt` the
step's adjustment produced. -/
theorem C9_time_accumulation (ampArg : ℝ) (U V : ℕ → SIdx → ℝ) (zt0 : SField) (n : ℕ) :
    (run ampArg U V zt0 n).t
        = ((List.range n).map (consumedDt ampArg U V zt0)).foldl (· + ·) 0 ∧
    (run ampArg U V zt0 n).step = n ∧
    (run ampArg U V zt0 (n + 1)).dt = consumedDt ampArg U V zt0 n := by
  induction n with
  | zero => exact ⟨rfl, rfl, rfl⟩
  | succ n ih =>
    refine ⟨?_, ?_, rfl⟩
    · show (run ampArg U V zt0 n).t + consumedDt ampArg U V zt0 n = _
      rw [List.range_succ, List.map_append, List.foldl_append, ih.1]
      simp
    · show (run ampArg U V zt0 n).step + 1 = n + 1
      rw [ih.2.1]

/-! ## Claim C10 -/

/-- C10: one application of the adaptive-timestep update to a strictly
positive `dt` yields a strictly positive `dt` (equal to `0.9*dt`,
`1.1*dt` or `dt`), so `dt > 0` is an invariant preserved by every
simulation step given the positive initial `dt`. -/
theorem C10_dt_positive :
    (∀ c dt : ℝ, 0 < dt → 0 < adapt_dt c dt ∧
        (adapt_dt c dt = 0.9 * dt ∨ adapt_dt c dt = 1.1 * dt ∨ adapt_dt c dt = dt)) ∧
    0 < dt0 ∧
    (∀ ampArg u v s, 0 < s.dt → 0 < (stepState ampArg u v s).dt) ∧
    (∀ ampArg U V zt0 n, 0 < (run ampArg U V zt0 n).dt) := by
  have hadapt : ∀ c dt : ℝ, 0 < dt → 0 < adapt_dt c dt ∧
      (adapt_dt c dt = 0.9 * dt ∨ adapt_dt c dt = 1.1 * dt ∨ adapt_dt c dt = dt) := by
    intro c dt h
    unfold adapt_dt
    split_ifs
    · exact ⟨by linarith, Or.inl rfl⟩
    · exact ⟨by linarith, Or.inr (Or.inl rfl)⟩
    · exact ⟨h, Or.inr (Or.inr rfl)⟩
  have hdt0 : 0 < dt0 := by norm_num [dt0]
  refine ⟨hadapt, hdt0, fun ampArg u v s h => (hadapt _ _ h).1, fun ampArg U V zt0 n => ?_⟩
  induction n with
  | zero => exact hdt0
  | succ n ih => exact (hadapt _ _ ih).1

/-- Witness for C10: the positivity hypothesis discharged at the
concrete Courant number `0.5` and `dt = 1`. -/
theorem C10_dt_positive_witness :
    0 < adapt_dt 0.5 1 ∧
    (adapt_dt 0.5 1 = 0.9 * 1 ∨ adapt_dt 0.5 1 = 1.1 * 1 ∨ adapt_dt 0.5 1 = 1) :=
  C10_dt_positive.1 0.5 1 (by norm_num)

/-! ## Claim C5 (corrected): the forcing band and draw law.  The
in-band coefficient is `0.5*amp*(u - 0.5)*exp(2*pi*i*v)` with
`u, v` uniform on `[0,1)`, so its real magnitude factor lies in
`[-0.25*amp, 0.25*amp]`, never beyond `0.25*amp`. -/

lemma band_iff (q : SIdx) :
    (14 < Real.sqrt (ksq q) / dk ∧ Real.sqrt (ksq q) / dk < 20)
      ↔ (14 * dk < Real.sqrt (k q.2 ^ 2 + l q.1 ^ 2) ∧
          Real.sqrt (k q.2 ^ 2 + l q.1 ^ 2) < 20 * dk) := by
  by_cases hq : q = zeroIdx
  · subst hq
    rw [ksq_zeroIdx]
    constructor
    · rintro ⟨h1, _⟩
      exfalso
      have hs : Real.sqrt 1 = 1 := Real.sqrt_one
      rw [hs] at h1
      have hdk1 : (1 : ℝ) ≤ dk := by
        rw [dk_eq]
        nlinarith [pi_gt_three]
      have : 1 / dk ≤ 1 := by
        rw [div_le_one (by linarith)]
        exact hdk1
      linarith
    · rintro ⟨h1, _⟩
      exfalso
      have h0 : k zeroIdx.2 ^ 2 + l zeroIdx.1 ^ 2 = 0 := by
        simp [zeroIdx, k_zero, l_zero]
      rw [h0, Real.sqrt_zero] at h1
      nlinarith [dk_pos]
  · rw [ksq_of_ne hq, lt_div_iff₀ dk_pos, div_lt_iff₀ dk_pos]

lemma abs_exp_I_mul (r : ℝ) : Complex.abs (Complex.exp (Complex.I * (r : ℂ))) = 1 := by
  rw [Complex.abs_exp]
  simp [Complex.mul_re]

lemma forcet_abs_le (A : ℝ) (hA : 0 ≤ A) (u v : SIdx → ℝ)
    (hu : ∀ p, 0 ≤ u p ∧ u p < 1) (q : SIdx) :
    Complex.abs (forcet_draw A u v q) ≤ 0.25 * A := by
  rw [forcet_draw]
  split
  · rw [map_mul, abs_exp_I_mul, mul_one, Complex.abs_ofReal]
    have h1 := (hu q).1
    have h2 := (hu q).2
    rw [abs_le]
    constructor <;> nlinarith
  · simp only [map_zero]
    positivity

/-- C5 (amended): every per-step forcing spectral field is zero at
every coefficient whose wavenumber magnitude lies outside the annular
band `(14*dk, 20*dk)`; within the band each retained coefficient equals
`0.5*A*(u - 0.5) * exp(2*pi*i*v)` for that step's uniform `[0,1)` draws
`u`, `v`, so its real magnitude factor lies in `[-0.25*A, 0.25*A]`
(never beyond `0.25*A` in absolute value, for any draw), its complex
modulus is at most `0.25*A`, and its phase `2*pi*v` is uniform-random in
`[0, 2*pi)`; `A` is fixed once at initialization as
`forcing_amp_factor` times the peak initial vorticity magnitude divided
by the initial `dt`. -/
theorem C5_forcing (A : ℝ) (hA : 0 ≤ A) (u v : SIdx → ℝ)
    (hu : ∀ p, 0 ≤ u p ∧ u p < 1) (hv : ∀ p, 0 ≤ v p ∧ v p < 1) (q : SIdx) :
    (¬(14 * dk < Real.sqrt (k q.2 ^ 2 + l q.1 ^ 2) ∧
        Real.sqrt (k q.2 ^ 2 + l q.1 ^ 2) < 20 * dk) → forcet_draw A u v q = 0) ∧
    ((14 * dk < Real.sqrt (k q.2 ^ 2 + l q.1 ^ 2) ∧
        Real.sqrt (k q.2 ^ 2 + l q.1 ^ 2) < 20 * dk) →
      forcet_draw A u v q
        = ((0.5 * A * (u q - 0.5) : ℝ) : ℂ) * Complex.exp (Complex.I * ((2 * π * v q : ℝ) : ℂ)) ∧
      -(0.25 * A) ≤ 0.5 * A * (u q - 0.5) ∧ 0.5 * A * (u q - 0.5) ≤ 0.25 * A ∧
      Complex.abs (forcet_draw A u v q) ≤ 0.25 * A ∧
      0 ≤ 2 * π * v q ∧ 2 * π * v q < 2 * π) ∧
    (∀ qi : RField, amp qi = forcing_amp_factor * maxAbs qi / dt0) := by
  refine ⟨fun hout => ?_, fun hin => ?_, fun qi => rfl⟩
  · rw [forcet_draw, if_neg]
    exact fun hc => hout ((band_iff q).mp hc)
  · have hcode := (band_iff q).mpr hin
    have h1 := (hu q).1
    have h2 := (hu q).2
    have hv1 := (hv q).1
    have hv2 := (hv q).2
    have hpi := pi_pos
    refine ⟨?_, by nlinarith, by nlinarith, forcet_abs_le A hA u v hu q, ?_, ?_⟩
    · rw [forcet_draw, if_pos hcode]
    · exact mul_nonneg (by positivity) hv1
    · nlinarith

lemma k_q15 : k q15.2 = dk * 15 := by
  rw [show q15.2 = (15 : Fin nk) from rfl, k, show ((15 : Fin nk)).val = 15 from rfl]
  norm_num

lemma band_at_q15 :
    14 * dk < Real.sqrt (k q15.2 ^ 2 + l q15.1 ^ 2) ∧
    Real.sqrt (k q15.2 ^ 2 + l q15.1 ^ 2) < 20 * dk := by
  rw [k_q15, show q15.1 = (0 : Fin nl) from rfl, l_zero]
  rw [show (dk * 15) ^ 2 + (0 : ℝ) ^ 2 = (dk * 15) ^ 2 by ring]
  rw [Real.sqrt_sq (mul_nonneg dk_pos.le (by norm_num) : (0 : ℝ) ≤ dk * 15)]
  constructor <;> nlinarith [dk_pos]

/-- Witness for C5 at the in-band mode `q15` with `A = 1` and the
all-zero random draws. -/
theorem C5_forcing_witness :
    forcet_draw 1 (fun _ => 0) (fun _ => 0) q15
      = ((0.5 * 1 * ((0 : ℝ) - 0.5) : ℝ) : ℂ)
          * Complex.exp (Complex.I * ((2 * π * (0 : ℝ) : ℝ) : ℂ)) ∧
    -(0.25 * 1) ≤ 0.5 * 1 * ((0 : ℝ) - 0.5) ∧
    0.5 * 1 * ((0 : ℝ) - 0.5) ≤ 0.25 * 1 ∧
    Complex.abs (forcet_draw 1 (fun _ => 0) (fun _ => 0) q15) ≤ 0.25 * 1 ∧
    0 ≤ 2 * π * (0 : ℝ) ∧ 2 * π * (0 : ℝ) < 2 * π :=
  (C5_forcing 1 (by norm_num) (fun _ => 0) (fun _ => 0)
    (fun p => by norm_num) (fun p => by norm_num) q15).2.1 band_at_q15

/-- Counterexample for C5 as stated: with `A = 1`, no valid uniform
`[0,1)` draw makes any retained coefficient's magnitude exceed
`0.25*A`, refuting that the magnitude ranges over `[-0.5A, 0.5A]` and
attains values beyond `0.25A`. -/
theorem C5_counterexample :
    ¬ ∃ (u v : SIdx → ℝ) (q : SIdx),
        (∀ p, 0 ≤ u p ∧ u p < 1) ∧ (∀ p, 0 ≤ v p ∧ v p < 1) ∧
        0.25 * 1 < Complex.abs (forcet_draw 1 u v q) := by
  rintro ⟨u, v, q, hu, hv, habs⟩
  exact absurd habs (not_lt.mpr (forcet_abs_le 1 (by norm_num) u v hu q))

/-! ## Claim C3 (corrected): the damping factor `deln` is computed each
step but, the multiplication into `zt` being commented out in the
source, is never applied.  We evaluate one loop-body step from the zero
vorticity state with a forcing draw that is nonzero at `q15` and show
the code's step differs from the claim-side damped step there. -/

lemma spectralExtend_zero (p : Fin nl × Fin nx) :
    spectralExtend (fun _ => 0) p = 0 := by
  unfold spectralExtend
  split <;> simp

lemma ift_zero (p : RIdx) : ift (fun _ => 0) p = 0 := by
  unfold ift
  rw [Finset.sum_eq_zero fun q _ => by rw [spectralExtend_zero, zero_mul]]
  simp

lemma ft_zero (q : SIdx) : ft (fun _ => 0) q = 0 := by
  unfold ft
  simp

lemma psix_of_zero (p : RIdx) : psix_of zeroS p = 0 := by
  have h : (grad (psit_of zeroS)).1 = fun _ => (0 : ℂ) := by
    funext q
    simp [grad, psit_of, zeroS]
  rw [psix_of, h, ift_zero]

lemma psiy_of_zero (p : RIdx) : psiy_of zeroS p = 0 := by
  have h : (grad (psit_of zeroS)).2 = fun _ => (0 : ℂ) := by
    funext q
    simp [grad, psit_of, zeroS]
  rw [psiy_of, h, ift_zero]

lemma zx_of_zero (p : RIdx) : zx_of zeroS p = 0 := by
  have h : (grad zeroS).1 = fun _ => (0 : ℂ) := by
    funext q
    simp [grad, zeroS]
  rw [zx_of, h, ift_zero]

lemma zy_of_zero (p : RIdx) : zy_of zeroS p = 0 := by
  have h : (grad zeroS).2 = fun _ => (0 : ℂ) := by
    funext q
    simp [grad, zeroS]
  rw [zy_of, h, ift_zero]

lemma jact_of_zero (q : SIdx) : jact_of zeroS q = 0 := by
  have h : jac_of zeroS = fun _ => (0 : ℝ) := by
    funext p
    simp [jac_of, psix_of_zero, psiy_of_zero, zx_of_zero, zy_of_zero]
  rw [jact_of, h, ft_zero]

lemma rhs_of_zero (f : SField) (q : SIdx) : rhs_of zeroS f q = f q := by
  simp only [rhs_of]
  rw [jact_of_zero]
  simp [grad, psit_of, zeroS]

lemma maxAbs_zero : maxAbs (fun _ => (0 : ℝ)) = 0 := by
  simp [maxAbs]

lemma courant_of_zero (dt : ℝ) : courant_of zeroS dt = 0 := by
  have hx : psix_of zeroS = fun _ => (0 : ℝ) := funext psix_of_zero
  have hy : psiy_of zeroS = fun _ => (0 : ℝ) := funext psiy_of_zero
  simp [courant_of, courant_number, hx, hy, maxAbs_zero]

lemma adapt_dt_zero (dt : ℝ) : adapt_dt 0 dt = 1.1 * dt := by
  rw [adapt_dt, if_neg (by norm_num [SLOWDN_AT_C]),
    if_pos ⟨by norm_num [SPEEDUP_AT_C], rfl⟩]

lemma ksq_q15_div : ksq q15 / (dk * dk) = 225 := by
  have h0 := ksq_row0_div (15 : Fin nk) (by decide)
  rw [show ((15 : Fin nk)).val = 15 from rfl] at h0
  rw [show q15 = (((0 : Fin nl), (15 : Fin nk)) : SIdx) from rfl, h0]
  norm_num

lemma aa_at_q15 (phi : SField) : anti_alias phi q15 = phi q15 := by
  simp only [anti_alias, ksq_q15_div]
  rw [if_neg (by norm_num)]

lemma hwf_at_q15 (phi : SField) : high_wn_filter phi q15 = phi q15 := by
  simp only [high_wn_filter, ksq_q15_div]
  rw [if_neg (by norm_num [kcut])]

lemma mask_q15 : 14 < Real.sqrt (ksq q15) / dk ∧ Real.sqrt (ksq q15) / dk < 20 :=
  (band_iff q15).mpr band_at_q15

lemma forcet_at_q15 :
    forcet_draw 1 (fun _ => 0) (fun _ => 0) q15 = ((-0.25 : ℝ) : ℂ) := by
  rw [forcet_draw, if_pos mask_q15]
  norm_num

lemma ab_zero_state (rhs : SField) (dt : ℝ) (q : SIdx) :
    (adams_bashforth 0 zeroS rhs dt zeroS zeroS).newField q = (dt : ℂ) * rhs q := by
  simp [adams_bashforth, zeroS]

lemma floor_nx_third : ((⌊(nx : ℝ) / 3⌋₊ : ℕ) : ℝ) = 85 := by
  have h : ⌊(nx : ℝ) / 3⌋₊ = 85 := by
    rw [Nat.floor_eq_iff (by positivity)]
    norm_num
  rw [h]
  norm_num

lemma nu_pos : 0 < nu := by
  rw [nu, floor_nx_third, Lx, tau]
  positivity

lemma deln_lt_one_q15 {dt : ℝ} (hdt : 0 < dt) : deln dt q15 < 1 := by
  rw [deln]
  have hksq := ksq_pos q15
  have hnu := nu_pos
  have hx : 0 < nu * ksq q15 ^ n_diss * dt := by positivity
  rw [div_lt_one (by linarith)]
  linarith

lemma step_code_at_q15 :
    (stepState 1 (fun _ => 0) (fun _ => 0) (initState zeroS)).zt q15
      = ((1.1 * dt0 : ℝ) : ℂ) * ((-0.25 : ℝ) : ℂ) := by
  show high_wn_filter (anti_alias (adams_bashforth 0 zeroS
      (rhs_of zeroS (forcet_draw 1 (fun _ => 0) (fun _ => 0)))
      (adapt_dt (courant_of zeroS dt0) dt0) zeroS zeroS).newField) q15 = _
  rw [hwf_at_q15, aa_at_q15, courant_of_zero, adapt_dt_zero, ab_zero_state,
    rhs_of_zero, forcet_at_q15]

lemma step_damped_at_q15 :
    (stepState_damped_spec 1 (fun _ => 0) (fun _ => 0) (initState zeroS)).zt q15
      = ((deln (1.1 * dt0) q15 : ℝ) : ℂ) * (((1.1 * dt0 : ℝ) : ℂ) * ((-0.25 : ℝ) : ℂ)) := by
  show high_wn_filter (anti_alias (fun q =>
      ((deln (adapt_dt (courant_of zeroS dt0) dt0) q : ℝ) : ℂ) *
        (adams_bashforth 0 zeroS
          (rhs_of zeroS (forcet_draw 1 (fun _ => 0) (fun _ => 0)))
          (adapt_dt (courant_of zeroS dt0) dt0) zeroS zeroS).newField q)) q15 = _
  rw [hwf_at_q15, aa_at_q15]
  show ((deln (adapt_dt (courant_of zeroS dt0) dt0) q15 : ℝ) : ℂ) *
      (adams_bashforth 0 zeroS
        (rhs_of zeroS (forcet_draw 1 (fun _ => 0) (fun _ => 0)))
        (adapt_dt (courant_of zeroS dt0) dt0) zeroS zeroS).newField q15 = _
  rw [courant_of_zero, adapt_dt_zero, ab_zero_state, rhs_of_zero, forcet_at_q15]

/-- Counterexample for C3 as stated: one loop-body step from the zero
vorticity state, with forcing amplitude 1 and the all-zero random
draws, differs at `q15` from the claim-side step that applies the
damping factor `deln`, because the source's application of `deln` is
commented out while `deln q15 < 1`. -/
theorem C3_counterexample :
    (stepState_damped_spec 1 (fun _ => 0) (fun _ => 0) (initState zeroS)).zt q15
      ≠ (stepState 1 (fun _ => 0) (fun _ => 0) (initState zeroS)).zt q15 := by
  rw [step_code_at_q15, step_damped_at_q15]
  intro h
  have hdt : (0 : ℝ) < 1.1 * dt0 := by norm_num [dt0]
  have hd := deln_lt_one_q15 hdt
  have hab : ((1.1 * dt0 : ℝ) : ℂ) * ((-0.25 : ℝ) : ℂ) ≠ 0 := by
    refine mul_ne_zero ?_ ?_ <;> rw [Complex.ofReal_ne_zero]
    · norm_num [dt0]
    · norm_num
  have h1 : ((deln (1.1 * dt0) q15 : ℝ) : ℂ) = 1 := by
    have h' := h
    nth_rewrite 2 [← one_mul (((1.1 * dt0 : ℝ) : ℂ) * ((-0.25 : ℝ) : ℂ))] at h'
    exact mul_right_cancel₀ hab h'
  have h2 : deln (1.1 * dt0) q15 = 1 := by exact_mod_cast h1
  linarith

/-- C3 (amended): `nu` is derived once at initialization as
`((Lx/(floor(nx/3)*2*pi))^(2*n_diss))/tau` and each step computes the
implicit hyperviscous damping factor `deln = 1/(1 + nu*ksq^n_diss*dt)`
from the current `dt`, but the step does not apply it to the spectral
vorticity (the multiplication `zt[:] = zt * deln` is commented out in
the source): the stepped field is
`high_wn_filter(anti_alias(adams_bashforth(...)))` with no damping
factor, whereas applying the factor would insert a pointwise
multiplication by `deln` between the integrator and the filters. -/
theorem C3_hyperviscosity :
    nu = (Lx / ((⌊(nx : ℝ) / 3⌋₊ : ℝ) * (2 * π))) ^ (2 * n_diss) / tau ∧
    (∀ dt : ℝ, ∀ q : SIdx, deln dt q = 1 / (1 + nu * ksq q ^ n_diss * dt)) ∧
    (∀ ampArg u v s, (stepState ampArg u v s).zt
        = high_wn_filter (anti_alias (adams_bashforth s.step s.zt
            (rhs_of s.zt (forcet_draw ampArg u v))
            (adapt_dt (courant_of s.zt s.dt) s.dt) s.prhs s.pprhs).newField) ∧
      (stepState_damped_spec ampArg u v s).zt
        = high_wn_filter (anti_alias (fun q =>
            ((deln (adapt_dt (courant_of s.zt s.dt) s.dt) q : ℝ) : ℂ) *
              (adams_bashforth s.step s.zt (rhs_of s.zt (forcet_draw ampArg u v))
                (adapt_dt (courant_of s.zt s.dt) s.dt) s.prhs s.pprhs).newField q))) :=
  ⟨rfl, fun _ _ => rfl, fun _ _ _ _ => ⟨rfl, rfl⟩⟩

end

end BaroVort
